import Mathlib

/-!
Shallow embedding of the plate-candidate extraction engine of
`src/plate_parser.py` (repository abhiram264/aws-textract).

Text is modelled as `List Char`; confidences (Python floats in range
[0,100]) as `ℚ`.  Python's regular expressions are embedded as dedicated
executable matchers, one per regex of the source, with bounded
quantifiers expanded into explicit alternatives.  All definitions are
computable so that concrete runs of the pipeline can be settled by
`decide`.
-/

set_option maxRecDepth 100000

/-- The ASCII whitespace characters recognised by Python's `str.strip()`
and by the regex class `\s` on ASCII text. -/
def pySpace (c : Char) : Bool :=
  c = ' ' || c = '\t' || c = '\n' || c = '\r' || c = '\x0b' || c = '\x0c'

/-- Membership in the regex class `[A-Z]`. -/
def isUpperAZ (c : Char) : Bool := 'A' ≤ c && c ≤ 'Z'

/-- Membership in `[a-z]`. -/
def isLowerAZ (c : Char) : Bool := 'a' ≤ c && c ≤ 'z'

/-- Membership in `[0-9]` (`\d` on ASCII text). -/
def isDigitCh (c : Char) : Bool := '0' ≤ c && c ≤ '9'

/-- ASCII letter (`str.isalpha` restricted to ASCII, as used by the
marker-stripping step of `clean_raw_text`). -/
def isAsciiAlpha (c : Char) : Bool := isUpperAZ c || isLowerAZ c

/-- Membership in `[A-Za-z0-9]`, the lookaround class of the embedded
hyphen-removal regex. -/
def isAlnumCh (c : Char) : Bool := isAsciiAlpha c || isDigitCh c

/-- `str.upper` on one ASCII character. -/
def upChar (c : Char) : Char := if isLowerAZ c then Char.ofNat (c.toNat - 32) else c

/-- `str.lower` on one ASCII character. -/
def lowChar (c : Char) : Char := if isUpperAZ c then Char.ofNat (c.toNat + 32) else c

/-- `str.upper` (ASCII). -/
def pyUpper (l : List Char) : List Char := l.map upChar

/-- `str.lower` (ASCII). -/
def pyLower (l : List Char) : List Char := l.map lowChar

/-- Drop leading characters satisfying `p` (`str.lstrip`). -/
def dropLead (p : Char → Bool) (l : List Char) : List Char := l.dropWhile p

/-- Drop trailing characters satisfying `p` (`str.rstrip`). -/
def dropTrail (p : Char → Bool) (l : List Char) : List Char := (l.reverse.dropWhile p).reverse

/-- Strip on both sides. -/
def stripBy (p : Char → Bool) (l : List Char) : List Char := dropTrail p (dropLead p l)

/-- `str.strip()` with no argument: strips whitespace. -/
def pyStrip (l : List Char) : List Char := stripBy pySpace l

/-- `str.strip(cs)`: strips any of the characters of `cs` on both sides. -/
def stripSet (cs : List Char) (l : List Char) : List Char := stripBy (fun c => cs.contains c) l

/-- `str.rstrip(cs)`. -/
def rstripSet (cs : List Char) (l : List Char) : List Char :=
  dropTrail (fun c => cs.contains c) l

/-- `s.startswith(p)`: first argument is the pattern. -/
def leadsWith : List Char → List Char → Bool
  | [], _ => true
  | _ :: _, [] => false
  | p :: ps, c :: cs => p = c && leadsWith ps cs

/-- Python's `sub in s` substring test. -/
def containsSub : List Char → List Char → Bool
  | [], sub => sub.isEmpty
  | c :: cs, sub => leadsWith sub (c :: cs) || containsSub cs sub

/-!
### A token-list embedding of the source's anchored regexes

Every regex of `plate_parser.py` is a concatenation of character-class
pieces with small bounded quantifiers.  `{lo,hi}` quantifiers are
expanded into one alternative per admissible count, so each token below
consumes a fixed class: this keeps the matcher structurally recursive
(hence kernel-reducible).  `sepOpt` keeps genuine alternation (both the
consuming and the non-consuming branch are tried), which reproduces the
backtracking semantics of `[-.\s]?` exactly.  `wsPlus` (`\s+`) is
matched greedily without backtracking; in every pattern of the library
the token following `\s+`/`\s` is a letter or digit class, which is
disjoint from `\s`, so maximal munch coincides with the regex
semantics.
-/

inductive RTok where
  | lits : Nat → RTok
  | digs : Nat → RTok
  | lit : Char → RTok
  | sepOpt : RTok
  | sepReq : RTok
  | wsOne : RTok
  | wsPlus : RTok
deriving DecidableEq

/-- The separator class `[-.\s]`. -/
def isSepCls (c : Char) : Bool := c = '-' || c = '.' || pySpace c

/-- Consume exactly `n` characters satisfying `p`, returning the rest. -/
def exactTake (p : Char → Bool) : Nat → List Char → Option (List Char)
  | 0, s => some s
  | _ + 1, [] => none
  | n + 1, c :: cs => if p c then exactTake p n cs else none

/-- Run a token list against an input.  `anchor = true` corresponds to a
trailing `$` (the matched input must be consumed entirely); with
`anchor = false` the token list only has to match a prefix, which is
`re.match` without `$`. -/
def runToks (anchor : Bool) : List RTok → List Char → Bool
  | [], s => !anchor || s.isEmpty
  | RTok.lits n :: ts, s =>
      match exactTake isUpperAZ n s with
      | some r => runToks anchor ts r
      | none => false
  | RTok.digs n :: ts, s =>
      match exactTake isDigitCh n s with
      | some r => runToks anchor ts r
      | none => false
  | RTok.lit c :: ts, s =>
      match s with
      | [] => false
      | x :: xs => x = c && runToks anchor ts xs
  | RTok.sepOpt :: ts, s =>
      runToks anchor ts s ||
        (match s with
         | [] => false
         | x :: xs => isSepCls x && runToks anchor ts xs)
  | RTok.sepReq :: ts, s =>
      match s with
      | [] => false
      | x :: xs => isSepCls x && runToks anchor ts xs
  | RTok.wsOne :: ts, s =>
      match s with
      | [] => false
      | x :: xs => pySpace x && runToks anchor ts xs
  | RTok.wsPlus :: ts, s =>
      let w := s.takeWhile pySpace
      !w.isEmpty && runToks anchor ts (s.drop w.length)

open RTok in
/-- The 15 anchored layout regexes `PlateParser.INDIAN_PATTERNS`, in
source order, each expanded into one token list per admissible
quantifier count.  Matching is any-of, so the expansion order within a
pattern is irrelevant. -/
def INDIAN_PATTERNS : List (List RTok) :=
  -- 1: ^([A-Z]{2})[-.\s]?(\d{2})[-.\s]?([A-Z]{1,3})[-.\s]?(\d{3,4})$
  ([1, 2, 3].flatMap fun a => [3, 4].map fun b =>
    [lits 2, sepOpt, digs 2, sepOpt, lits a, sepOpt, digs b]) ++
  -- 2: ^([A-Z]{2})[-.\s]?(\d{2})[-.\s]?([A-Z])[-.\s]?(\d{4})$
  [[lits 2, sepOpt, digs 2, sepOpt, lits 1, sepOpt, digs 4]] ++
  -- 3: ^([A-Z]{2})(\d{2})([A-Z]{1,3})(\d{3,4})$
  ([1, 2, 3].flatMap fun a => [3, 4].map fun b =>
    [lits 2, digs 2, lits a, digs b]) ++
  -- 4: ^([A-Z]{2})\s(\d{2})\s([A-Z]{1,2})\s(\d{4,5})$
  ([1, 2].flatMap fun a => [4, 5].map fun b =>
    [lits 2, wsOne, digs 2, wsOne, lits a, wsOne, digs b]) ++
  -- 5: ^([A-Z]{2})[-.\s]?(\d{2})([A-Z])[-.\s]([A-Z]\d{4})$
  [[lits 2, sepOpt, digs 2, lits 1, sepReq, lits 1, digs 4]] ++
  -- 6: ^([A-Z]{2})[-.\s]?(\d{2})([A-Z])[-.\s](\d{4,5})$
  ([4, 5].map fun b => [lits 2, sepOpt, digs 2, lits 1, sepReq, digs b]) ++
  -- 7: ^([A-Z]{2})[-.\s]?(\d{2})([A-Z])[-.\s]([A-Z]\d{3,4})$
  ([3, 4].map fun b => [lits 2, sepOpt, digs 2, lits 1, sepReq, lits 1, digs b]) ++
  -- 8: ^([A-Z]{2})\s+(\d{2})\s+([A-Z]{1,2})\s+(\d{3,4})$
  ([1, 2].flatMap fun a => [3, 4].map fun b =>
    [lits 2, wsPlus, digs 2, wsPlus, lits a, wsPlus, digs b]) ++
  -- 9: ^([A-Z]{2})(\d{2})\s([A-Z]{1,3})[-.\s]?(\d{3,4})$
  ([1, 2, 3].flatMap fun a => [3, 4].map fun b =>
    [lits 2, digs 2, wsOne, lits a, sepOpt, digs b]) ++
  -- 10: ^([A-Z]{2})(\d{2})([A-Z])[-.\s](\d{4})$
  [[lits 2, digs 2, lits 1, sepReq, digs 4]] ++
  -- 11: ^([A-Z]{2})\s(\d{2})([A-Z]{1,3})(\d{3,4})$
  ([1, 2, 3].flatMap fun a => [3, 4].map fun b =>
    [lits 2, wsOne, digs 2, lits a, digs b]) ++
  -- 12: ^([A-Z]{2})\s(\d{2})\s([A-Z])\s([A-Z]\d{4})$
  [[lits 2, wsOne, digs 2, wsOne, lits 1, wsOne, lits 1, digs 4]] ++
  -- 13: ^([A-Z]{2})(\d{2})([A-Z])\s([A-Z]\d{4})$
  [[lits 2, digs 2, lits 1, wsOne, lits 1, digs 4]] ++
  -- 14: ^([A-Z]{2})(\d{2})([A-Z]{2})\s(\d{3,4})$
  ([3, 4].map fun b => [lits 2, digs 2, lits 2, wsOne, digs b]) ++
  -- 15: ^([A-Z]{2})\s(\d{2})([A-Z]{2})(\d{4})$
  [[lits 2, wsOne, digs 2, lits 2, digs 4]]

/-- `any(pat.match(t) for pat in self.compiled_patterns)`: the built-in
library tried in sequence (any-of).  Every library pattern ends in `$`,
so the match is anchored at both ends; the input has always been
stripped before this is called, so the `$`/final-newline subtlety of
Python regexes cannot arise. -/
def matchesAnyBuiltin (t : List Char) : Bool :=
  INDIAN_PATTERNS.any fun p => runToks true p t

/-!
### The `Plate:` overlay search

`re.search(r'Plate:\s*([A-Z0-9\s]{6,15})', t, re.IGNORECASE)` (inside
`clean_raw_text`) and `re.search(r'Plate:\s*([A-Z0-9]{6,15})', text,
re.IGNORECASE)` (pass 3 of `extract_plates`) differ only in the payload
class, so they share one scanner parameterised by that class.  With
`re.IGNORECASE` the literal is case-insensitive and `[A-Z0-9]` also
matches `[a-z]`.  `re.search` returns the leftmost position at which
the whole pattern matches; `\s*` is greedy and backtracks (relevant for
the first variant, whose payload class also contains `\s`), and the
payload quantifier is greedy with nothing following it, so it captures
`min 15` of the class run. -/

/-- The literal `Plate:` compared case-insensitively. -/
def markerChars : List Char := ['p', 'l', 'a', 't', 'e', ':']

/-- If `s` starts with the (case-insensitive) marker, return the rest. -/
def dropMarker (s : List Char) : Option (List Char) :=
  if pyLower (s.take 6) = markerChars then some (s.drop 6) else none

/-- Greedy `{6,15}` capture of a class run: fails below 6 characters,
captures at most 15. -/
def classTake (cls : Char → Bool) (r : List Char) : Option (List Char) :=
  let run := r.takeWhile cls
  if 6 ≤ run.length then some (run.take 15) else none

/-- Backtracking for `\s*`: try consuming `w` whitespace characters,
largest `w` first (greedy). -/
def wsBack (cls : Char → Bool) : Nat → List Char → Option (List Char)
  | 0, rest => classTake cls rest
  | w + 1, rest =>
      match classTake cls (rest.drop (w + 1)) with
      | some g => some g
      | none => wsBack cls w rest

/-- `re.search` for the overlay pattern: scan start positions left to
right; at each, require the marker, then `\s*` (greedy, backtracking),
then the captured class run.  Returns group 1. -/
def scanPayload (cls : Char → Bool) : List Char → Option (List Char)
  | [] => none
  | c :: cs =>
      match dropMarker (c :: cs) with
      | some rest =>
          (match wsBack cls (rest.takeWhile pySpace).length rest with
           | some g => some g
           | none => scanPayload cls cs)
      | none => scanPayload cls cs

/-- Payload class of the `clean_raw_text` variant: `[A-Z0-9\s]` with
`re.IGNORECASE`. -/
def cleanCls (c : Char) : Bool := isUpperAZ c || isLowerAZ c || isDigitCh c || pySpace c

/-- Payload class of the pass-3 variant: `[A-Z0-9]` with `re.IGNORECASE`. -/
def overlayCls (c : Char) : Bool := isUpperAZ c || isLowerAZ c || isDigitCh c

/-!  ### Fixed lookup tables of `plate_parser.py`  -/

/-- `INDIAN_STATE_CODES`: the known 2-letter regional codes. -/
def INDIAN_STATE_CODES : List (List Char) :=
  (["AN", "AP", "AR", "AS", "BR", "CG", "CH", "DD", "DL", "GA", "GJ", "HP",
    "HR", "JH", "JK", "KA", "KL", "LA", "LD", "MH", "ML", "MN", "MP", "MZ",
    "NL", "OD", "PB", "PY", "RJ", "SK", "TG", "TN", "TR", "TS", "UK", "UP",
    "WB"].map String.data)

/-- `OCR_DIGIT_FIXES`: letters misread where a digit is expected
(`{'O': '0', 'I': '1', 'l': '1', 'S': '5', 'B': '8', 'G': '6', 'D': '0'}`),
as a total function that is the identity outside the map's keys. -/
def ocrDigitFix (c : Char) : Char :=
  if c = 'O' then '0'
  else if c = 'I' then '1'
  else if c = 'l' then '1'
  else if c = 'S' then '5'
  else if c = 'B' then '8'
  else if c = 'G' then '6'
  else if c = 'D' then '0'
  else c

/-- `OCR_LETTER_FIXES`: digits misread where a letter is expected
(`{'0': 'O', '1': 'I', '5': 'S', '8': 'B', '6': 'G'}`), identity outside
the keys. -/
def ocrLetterFix (c : Char) : Char :=
  if c = '0' then 'O'
  else if c = '1' then 'I'
  else if c = '5' then 'S'
  else if c = '8' then 'B'
  else if c = '6' then 'G'
  else c

/-- `NOISE_WORDS`: junk words ignored completely. -/
def NOISE_WORDS : List (List Char) :=
  (["IND", "NO", "ND", "MC", "HIRE", "FOR", "GOODS", "CARRIER", "CONTRACT",
    "CARRIAGE", "GOVT", "HICLE", "VEHICLE", "AUTO", "MOTOR", "CAB", "CNG",
    "ASHOK", "LEYLAND", "ASHOKILEYLAND", "TATA", "SIGNA", "EICHER", "KIA",
    "ISUZU", "BHARATBENZ", "MAHINDRA", "POLICE", "LAKSHMI", "KRISHNA",
    "PVT", "LTD", "SUPER", "ROCKET", "RANGE", "ROVER", "DRIVING",
    "ROAD", "KING", "SECTION", "AMOUNT", "FRESH", "FRESS",
    "SPEED", "CLASS", "PLATE", "LANE", "DATE", "RHS", "LHS", "CH",
    "CAR", "BIKE", "TRUCK", "LCV", "BUS",
    "THE", "AND", "OF", "IN", "ON", "AT", "TO", "IS", "IT", "IF",
    "PP", "CK", "KO", "AO", "LI", "RE", "DE", "BE", "YK", "YS",
    "ARM", "CII", "NZB", "ISI", "PO", "JAI", "SANTOS", "HILL",
    "PRO", "EUTECH", "EUTECH6", "MEONAME"].map String.data)

/-- `STRIP_PREFIXES = ['(ND)', 'IND', 'NO', 'ND']`: leading marker
tokens removed before parsing, in this order. -/
def LEAD_MARKERS : List (List Char) :=
  (["(ND)", "IND", "NO", "ND"].map String.data)

/-!  ### `PlateParser.clean_raw_text`  -/

/-- One round of the marker-stripping loop body for a single marker
`m`: if `t.upper()` starts with `m + ' '` or `m + '\t'`, or starts with
`m` directly followed by a letter, drop `len(m)` characters and strip. -/
def stripOneMarker (m : List Char) (t : List Char) : List Char :=
  let up := pyUpper t
  if leadsWith (m ++ [' ']) up || leadsWith (m ++ ['\t']) up then
    pyStrip (t.drop m.length)
  else if leadsWith m up && decide (m.length < t.length)
          && isAsciiAlpha (t.getD m.length ' ') then
    pyStrip (t.drop m.length)
  else t

/-- The `for prefix in STRIP_PREFIXES` loop: the four markers are tried
in order, each acting on the result of the previous round. -/
def stripMarkers (t : List Char) : List Char :=
  LEAD_MARKERS.foldl (fun acc m => stripOneMarker m acc) t

/-- The junk characters stripped on both ends:
`t.strip('"\'()[]{}.,;:!?*# ')`. -/
def junkChars : List Char :=
  ['"', Char.ofNat 39, '(', ')', '[', ']', Char.ofNat 123, Char.ofNat 125,
   '.', ',', ';', ':', '!', '?', '*', '#', ' ']

/-- `re.sub(r'(?<=[A-Za-z0-9])-(?=[A-Za-z0-9])', '', t)`: remove each
hyphen whose neighbours in the original string are both alphanumeric.
The lookarounds are zero-width, so each hyphen is judged against the
original neighbouring characters; `p` carries the original previous
character. -/
def removeInnerHyphens : Option Char → List Char → List Char
  | _, [] => []
  | p, c :: cs =>
      if c = '-' && (match p with | some q => isAlnumCh q | none => false)
         && (match cs with | d :: _ => isAlnumCh d | [] => false) then
        removeInnerHyphens (some c) cs
      else c :: removeInnerHyphens (some c) cs

/-- Replace each maximal whitespace run by a single `' '` (the
substitution part of `re.sub(r'\s+', ' ', t)`).  The boolean flag
records whether we are inside a run already emitted. -/
def squeezeWs : List Char → Bool → List Char
  | [], _ => []
  | c :: cs, inRun =>
      if pySpace c then
        if inRun then squeezeWs cs true else ' ' :: squeezeWs cs true
      else c :: squeezeWs cs false

/-- `re.sub(r'\s+', ' ', t).strip()`. -/
def collapseWs (l : List Char) : List Char := pyStrip (squeezeWs l false)

/-- `PlateParser.clean_raw_text` (a `@staticmethod`): aggressive OCR
text cleaning, step for step as in the source. -/
def clean_raw_text (text : List Char) : List Char :=
  if text = [] then []
  else
    let t0 := pyStrip text
    let t1 := match scanPayload cleanCls t0 with
      | some g => pyStrip g
      | none => t0
    let t2 := stripMarkers t1
    let t3 := stripSet junkChars t2
    let t4 := stripSet ['-'] t3
    let t5 := t4.filter (fun c => c ≠ '.')
    let t6 := removeInnerHyphens none t5
    collapseWs t6

/-!  ### `PlateParser.fix_ocr_confusables`  -/

/-- Separator characters skipped by the repair walk (`' '` and `'-'`). -/
def isSepChar (c : Char) : Bool := c = ' ' || c = '-'

/-- One `while idx < len(result) and char_idx < 2` loop of
`fix_ocr_confusables`: walk the list, copying separators unchanged and
applying `f` to non-separator characters until two of them have been
consumed.  Returns the processed part and the unprocessed remainder
(the position `idx` reached). -/
def fixPass (f : Char → Char) : Nat → List Char → List Char × List Char
  | _, [] => ([], [])
  | k, c :: cs =>
      if 2 ≤ k then ([], c :: cs)
      else if isSepChar c then
        let p := fixPass f k cs
        (c :: p.1, p.2)
      else
        let p := fixPass f (k + 1) cs
        (f c :: p.1, p.2)

/-- `PlateParser.fix_ocr_confusables`: guard on the separator-stripped
length, then the letter-fix loop over the first two non-separator
characters followed by the digit-fix loop over the next two, the rest
unchanged. -/
def fix_ocr_confusables (text : List Char) : List Char :=
  let clean := text.filter (fun c => !(isSepChar c))
  if clean.length < 7 || decide (13 < clean.length) then text
  else
    let p1 := fixPass ocrLetterFix 0 text
    let p2 := fixPass ocrDigitFix 0 p1.2
    p1.1 ++ (p2.1 ++ p2.2)

/-- Single-pass restatement of the two repair loops, used to
characterise `fix_ocr_confusables` positionally: `k` counts the
non-separator characters already passed; ranks 0 and 1 get the
letter fix, ranks 2 and 3 the digit fix, later ranks are untouched. -/
def fixWalk : Nat → List Char → List Char
  | _, [] => []
  | k, c :: cs =>
      if isSepChar c then c :: fixWalk k cs
      else
        (if k < 2 then ocrLetterFix c
         else if k < 4 then ocrDigitFix c
         else c) :: fixWalk (k + 1) cs

/-- Number of non-separator characters strictly before position `i`. -/
def sepRank (l : List Char) (i : Nat) : Nat :=
  ((l.take i).filter (fun c => !(isSepChar c))).length

/-!  ### `PlateParser.is_noise`  -/

open RTok in
/-- `re.match(r'^\d{1,2}:\d{2}(:\d{2})?$', t)`, the `{1,2}` quantifier
and the optional group expanded into four anchored alternatives. -/
def timeShape (t : List Char) : Bool :=
  ([1, 2].flatMap fun a =>
    [[digs a, lit ':', digs 2], [digs a, lit ':', digs 2, lit ':', digs 2]]).any
    fun p => runToks true p t

open RTok in
/-- `re.match(r'^\d{4}-\d{2}-\d{2}', t)`: unanchored at the right, so a
prefix match suffices. -/
def dateShape (t : List Char) : Bool :=
  runToks false [digs 4, lit '-', digs 2, lit '-', digs 2] t

/-- `re.match(r'^\d+\s*km/h$', t, re.IGNORECASE)`.  `\d+` and `\s*` are
matched greedily; the following literal starts with a letter, disjoint
from both classes, so maximal munch is exact. -/
def kmhShape (t : List Char) : Bool :=
  let d := t.takeWhile isDigitCh
  let r1 := t.drop d.length
  let r2 := r1.drop (r1.takeWhile pySpace).length
  !d.isEmpty && pyLower r2 = ('k' :: 'm' :: '/' :: 'h' :: [])

/-- `re.match(r'^[\d+]*\s*RHS$', t, re.IGNORECASE)` (and the `LHS`
variant): a run of digits or `'+'`, optional whitespace, then the
word, anchored.  Again the classes are mutually disjoint and disjoint
from the final literal, so greedy matching is exact. -/
def tailWordShape (word : List Char) (t : List Char) : Bool :=
  let d := t.takeWhile (fun c => isDigitCh c || c = '+')
  let r1 := t.drop d.length
  let r2 := r1.drop (r1.takeWhile pySpace).length
  pyLower r2 = word

/-- `PlateParser.is_noise` (a `@staticmethod`): classify a text block
as noise / not plate-related. -/
def is_noise (text : List Char) : Bool :=
  let t := rstripSet ['.', '-', ':', ',', ';', '!', '?'] (pyUpper (pyStrip text))
  if t.length ≤ 1 then true
  else if NOISE_WORDS.contains t then true
  else if timeShape t then true
  else if dateShape t then true
  else if kmhShape t then true
  else if tailWordShape ('r' :: 'h' :: 's' :: []) t then true
  else if tailWordShape ('l' :: 'h' :: 's' :: []) t then true
  else if t.contains '@' || containsSub (pyLower t) ('g' :: 'm' :: 'a' :: 'i' :: 'l' :: []) then true
  else false

/-!  ### The parser object and its matching predicates  -/

/-- `PlateParser`: the immutable configuration built by `__init__`.
A compiled custom regex is modelled abstractly as a Boolean matcher
(`bool(compiled.match(text))`). -/
structure PlateParser where
  confidence_threshold : ℚ
  custom_pattern : Option (List Char → Bool)

/-- `PlateParser.__init__`: `if pattern:` is a truthiness test, so both
`None` and the empty string leave `custom_pattern = None`; otherwise the
pattern is compiled by the ambient regex engine, modelled by the
`compile` argument. -/
def PlateParser.init (confidence_threshold : ℚ) (pattern : Option (List Char))
    (compile : List Char → (List Char → Bool)) : PlateParser :=
  { confidence_threshold := confidence_threshold
    custom_pattern :=
      match pattern with
      | none => none
      | some p => if p = [] then none else some (compile p) }

/-- `PlateParser.matches_plate_pattern`: the caller-supplied pattern
alone decides if configured; otherwise the upper-cased, stripped text is
tried against the built-in library. -/
def matches_plate_pattern (P : PlateParser) (text : List Char) : Bool :=
  match P.custom_pattern with
  | some f => f text
  | none => matchesAnyBuiltin (pyStrip (pyUpper text))

/-- `PlateParser.validate_state_code`: strip spaces and hyphens,
upper-case, and require the first two characters to be a known code. -/
def validate_state_code (text : List Char) : Bool :=
  let clean := pyUpper (text.filter (fun c => !(isSepChar c)))
  decide (2 ≤ clean.length) && INDIAN_STATE_CODES.contains (clean.take 2)

/-- `PlateParser._try_match`: clean, length guard, noise guard, direct
layout + regional-code test, then the OCR-repair fallback.  The
source's locals `cleaned = clean_raw_text(text)` and
`fixed = fix_ocr_confusables(cleaned)` are inlined. -/
def tryMatch (P : PlateParser) (text : List Char) (confidence : ℚ) :
    Option (List Char × ℚ) :=
  if clean_raw_text text = [] || decide ((clean_raw_text text).length < 5) then none
  else if is_noise (clean_raw_text text) then none
  else if matches_plate_pattern P (clean_raw_text text)
          && validate_state_code (clean_raw_text text) then
    some (clean_raw_text text, confidence)
  else if fix_ocr_confusables (clean_raw_text text) ≠ clean_raw_text text
          && matches_plate_pattern P (fix_ocr_confusables (clean_raw_text text))
          && validate_state_code (fix_ocr_confusables (clean_raw_text text)) then
    some (fix_ocr_confusables (clean_raw_text text), confidence)
  else none

/-!
### Kernel-reducible arithmetic on `ℚ`

The `Rat` operations `add`/`sub`/`mul`/`inv` of the ambient library are
marked irreducible, which prevents `decide` from evaluating concrete
runs of the pipeline.  The embedding therefore computes with the
following equivalents, built from `mkRat` and integer arithmetic; the
bridge lemmas `qAdd_eq`, `qSub_eq`, `qMul_eq`, `qSum_eq`, `qNat_eq` and
`qDiv_eq`
below prove them equal to the standard operations.
-/

/-- Construct `n / d` for an integer denominator of arbitrary sign. -/
def qMk (n d : ℤ) : ℚ :=
  if d < 0 then mkRat (-n) (-d).toNat else mkRat n d.toNat

/-- Addition on `ℚ`. -/
def qAdd (a b : ℚ) : ℚ :=
  mkRat (a.num * (b.den : ℤ) + b.num * (a.den : ℤ)) (a.den * b.den)

/-- Subtraction on `ℚ`. -/
def qSub (a b : ℚ) : ℚ :=
  mkRat (a.num * (b.den : ℤ) - b.num * (a.den : ℤ)) (a.den * b.den)

/-- Multiplication on `ℚ`. -/
def qMul (a b : ℚ) : ℚ := mkRat (a.num * b.num) (a.den * b.den)

/-- Division on `ℚ` (with the `x / 0 = 0` convention). -/
def qDiv (a b : ℚ) : ℚ := qMk (a.num * (b.den : ℤ)) (b.num * (a.den : ℤ))

/-- The sum of a list of rationals. -/
def qSum : List ℚ → ℚ
  | [] => 0
  | x :: xs => qAdd x (qSum xs)

/-- The embedding of a natural number into `ℚ`. -/
def qNat (n : Nat) : ℚ := mkRat n 1

/-- The embedding of an integer into `ℚ`. -/
def qInt (z : ℤ) : ℚ := mkRat z 1

/-- `⌊q⌋` computed by floor division of numerator by denominator. -/
def qFloor (q : ℚ) : ℤ := Int.fdiv q.num q.den

/-!  ### The extraction pipeline  -/

/-- A Textract block as consumed by the parser: `text`, `confidence`
and the `geometry.BoundingBox` fields used by the geometric merge
(`Left` and `Width`; absent dictionary keys default to 0 in the source,
so the fields are total here). -/
structure TBlock where
  text : List Char
  confidence : ℚ
  left : ℚ
  width : ℚ
deriving DecidableEq

/-- The `block_type` tag attached by `_add` (the strings `'single'`,
`'merged'`, `'overlay'`, `'adjacent'`). -/
inductive BlockType where
  | single
  | merged
  | overlay
  | adjacent
deriving DecidableEq

/-- One entry of the `plates` list built by `extract_plates`. -/
structure Plate where
  text : List Char
  confidence : ℚ
  block_type : BlockType
deriving DecidableEq

/-- `PlateParser.filter_by_confidence`: keep blocks with
`confidence >= threshold`. -/
def filter_by_confidence (blocks : List TBlock) (threshold : ℚ) : List TBlock :=
  blocks.filter fun b => decide (threshold ≤ b.confidence)

/-- The loop body of `PlateParser.merge_adjacent_words`: `curText` is
`current_text`, `prev` the last block of the current group (the only
group member the source ever reads). -/
def mergeWalk (curText : List Char) (prev : TBlock) : List TBlock → List (List Char)
  | [] => if pyStrip curText ≠ [] then [pyStrip curText] else []
  | w :: ws =>
      if qSub w.left (qAdd prev.left prev.width) < mkRat 5 100 then
        mergeWalk (curText ++ (' ' :: w.text)) w ws
      else
        (if pyStrip curText ≠ [] then [pyStrip curText] else []) ++ mergeWalk w.text w ws

/-- `PlateParser.merge_adjacent_words`: group words whose horizontal
gap is below 0.05 and space-join each group. -/
def merge_adjacent_words : List TBlock → List (List Char)
  | [] => []
  | w :: ws => mergeWalk w.text w ws

/-- The normalisation key of `_add`:
`plate_dict['text'].replace(' ', '').upper()` (spaces only — hyphens are
kept). -/
def normKey (t : List Char) : List Char := pyUpper (t.filter (fun c => c ≠ ' '))

/-- The body of the local `_add` helper of `extract_plates`, folding
over the attempted plates: an attempt is appended only if its
normalisation key has not been seen, and then its key is recorded. -/
def addFold (st : List Plate × List (List Char)) (p : Plate) :
    List Plate × List (List Char) :=
  if normKey p.text ∈ st.2 then st
  else (st.1 ++ [p], normKey p.text :: st.2)

/-- Pass 1 of `extract_plates`: each block is stripped, skipped when
empty or below the threshold, and tried individually. -/
def pass1Attempts (P : PlateParser) (blocks : List TBlock) : List Plate :=
  blocks.filterMap fun b =>
    let text := pyStrip b.text
    if text = [] || decide (b.confidence < P.confidence_threshold) then none
    else (tryMatch P text b.confidence).map fun r => ⟨r.1, r.2, BlockType.single⟩

/-- The `usable` list of pass 2: blocks at or above the threshold whose
cleaned text is non-empty and not noise, as `(cleaned text, confidence)`
pairs. -/
def usableBlocks (P : PlateParser) (blocks : List TBlock) : List (List Char × ℚ) :=
  blocks.filterMap fun b =>
    let text := pyStrip b.text
    if text = [] || decide (b.confidence < P.confidence_threshold) then none
    else
      let cleaned := clean_raw_text text
      if cleaned ≠ [] && !(is_noise cleaned) then some (cleaned, b.confidence) else none

/-- `' '.join(parts)`. -/
def joinSpace : List (List Char) → List Char
  | [] => []
  | [t] => t
  | t :: ts => t ++ (' ' :: joinSpace ts)

/-- Text and confidence tried for one window of usable blocks: the
space-joined texts and the arithmetic mean of the confidences. -/
def winJoin (w : List (List Char × ℚ)) : List Char × ℚ :=
  (joinSpace (w.map (fun u => u.1)), qDiv (qSum (w.map (fun u => u.2))) (qNat w.length))

/-- The windows anchored at the first element of `l`: the source's
inner loop `for j in range(i + 1, min(i + 4, len(usable)))` yields the
windows of length 2, 3 and 4 (in that order) that fit in `l`. -/
def windowsFrom (l : List (List Char × ℚ)) : List (List Char × ℚ) :=
  [2, 3, 4].filterMap fun k =>
    if k ≤ l.length then some (winJoin (l.take k)) else none

/-- The source's outer loop `for i in range(len(usable))`: all
windows, grouped by start index in increasing order. -/
def winStarts : List (List Char × ℚ) → List (List Char × ℚ)
  | [] => []
  | x :: rest => windowsFrom (x :: rest) ++ winStarts rest

/-- Pass 2 of `extract_plates`: try every window of 2–4 consecutive
usable blocks. -/
def pass2Attempts (P : PlateParser) (blocks : List TBlock) : List Plate :=
  (winStarts (usableBlocks P blocks)).filterMap fun w =>
    (tryMatch P w.1 w.2).map fun r => ⟨r.1, r.2, BlockType.merged⟩

/-- Pass 3 of `extract_plates`: scan every block — with no threshold
test — for an embedded `Plate: <payload>` marker and try the stripped
payload at the block's own confidence. -/
def pass3Attempts (P : PlateParser) (blocks : List TBlock) : List Plate :=
  blocks.filterMap fun b =>
    let text := pyStrip b.text
    match scanPayload overlayCls text with
    | none => none
    | some payload =>
        (tryMatch P (pyStrip payload) b.confidence).map fun r =>
          ⟨r.1, r.2, BlockType.overlay⟩

/-- Pass 4 of `extract_plates`: geometric merging of the
above-threshold blocks; every merged string is tried at the mean
confidence of the whole above-threshold pool (0 when that pool is
empty). -/
def pass4Attempts (P : PlateParser) (blocks : List TBlock) : List Plate :=
  let above := filter_by_confidence blocks P.confidence_threshold
  let avg : ℚ :=
    if above = [] then 0
    else qDiv (qSum (above.map (fun b => b.confidence))) (qNat above.length)
  (merge_adjacent_words above).filterMap fun t =>
    (tryMatch P t avg).map fun r => ⟨r.1, r.2, BlockType.adjacent⟩

/-- All candidate insertions, in the order the four passes hand them to
`_add`: Single, then Merged, then Overlay, then Adjacent.  The passes
communicate only through `_add`, so running them first and folding
afterwards is the source's control flow verbatim. -/
def allAttempts (P : PlateParser) (blocks : List TBlock) : List Plate :=
  pass1Attempts P blocks ++ pass2Attempts P blocks ++
    pass3Attempts P blocks ++ pass4Attempts P blocks

/-- The `plates` list at the end of the four passes (before sorting):
the fold of `_add` over all insertions. -/
def extractRaw (P : PlateParser) (blocks : List TBlock) : List Plate :=
  ((allAttempts P blocks).foldl addFold ([], [])).1

/-- Reference dedup used to state the first-insertion-wins property:
keep an element iff its key is not among the already-kept keys. -/
def keepFirst (seen : List (List Char)) : List Plate → List Plate
  | [] => []
  | p :: ps =>
      if normKey p.text ∈ seen then keepFirst seen ps
      else p :: keepFirst (normKey p.text :: seen) ps

/-- Insert `x` before the first element whose confidence is at most
`x`'s.  This is the unique stable descending placement. -/
def insertDesc (x : Plate) : List Plate → List Plate
  | [] => [x]
  | y :: ys => if y.confidence ≤ x.confidence then x :: y :: ys else y :: insertDesc x ys

/-- `plates.sort(key=lambda x: x['confidence'], reverse=True)`:
Python's `list.sort` is a stable sort, and with `reverse=True` it
produces the descending order in which equal-key elements keep their
original relative order — which is exactly what this insertion sort
computes. -/
def sortDesc : List Plate → List Plate
  | [] => []
  | x :: xs => insertDesc x (sortDesc xs)

/-- `PlateParser.extract_plates`: the four passes, dedup via `_add`,
and the final stable descending sort. -/
def extract_plates (P : PlateParser) (blocks : List TBlock) : List Plate :=
  if blocks = [] then [] else sortDesc (extractRaw P blocks)

/-!  ### `parse_plates_from_textract`  -/

/-- An output plate of `parse_plates_from_textract`: formatted text,
confidence rounded to two decimals, and the `is_low_confidence` tag
(absent on main results, modelled as `false`). -/
structure FPlate where
  text : List Char
  confidence : ℚ
  is_low : Bool
deriving DecidableEq

/-- Round half to even (the rounding of Python's `round` on an exact
decimal value). -/
def roundHalfEven (q : ℚ) : ℤ :=
  if qSub q (qInt (qFloor q)) < mkRat 1 2 then qFloor q
  else if mkRat 1 2 < qSub q (qInt (qFloor q)) then qFloor q + 1
  else if qFloor q % 2 = 0 then qFloor q else qFloor q + 1

/-- `round(x, 2)`. -/
def round2 (q : ℚ) : ℚ := qDiv (qInt (roundHalfEven (qMul q (qNat 100)))) (qNat 100)

/-- `PlateParser.format_plates`: text plus confidence rounded to two
decimals (no low-confidence tag). -/
def format_plates (plates : List Plate) : List FPlate :=
  plates.map fun p => ⟨p.text, round2 p.confidence, false⟩

/-- The low-confidence augmentation loop of `parse_plates_from_textract`:
rerun the pipeline at the low threshold, keep candidates with
`conf < confidence_threshold` and `conf >= low_confidence_threshold`
whose exact text is absent from the main formatted results, and tag
them. -/
def lowAugmented (lines : List TBlock) (confidence_threshold low_threshold : ℚ)
    (pattern : Option (List Char)) (compile : List Char → (List Char → Bool)) :
    List FPlate :=
  let formatted := format_plates
    (extract_plates (PlateParser.init confidence_threshold pattern compile) lines)
  (extract_plates (PlateParser.init low_threshold pattern compile) lines).filterMap
    fun p =>
      if decide (p.confidence < confidence_threshold)
         && decide (low_threshold ≤ p.confidence)
         && formatted.all (fun m => m.text ≠ p.text) then
        some (⟨p.text, round2 p.confidence, true⟩ : FPlate)
      else none

/-- `parse_plates_from_textract`, restricted to the `plates` entry of
its result dictionary: the ranked main list, extended — when requested —
with the low-confidence augmentation. -/
def parse_plates_from_textract (lines : List TBlock) (confidence_threshold : ℚ)
    (pattern : Option (List Char)) (compile : List Char → (List Char → Bool))
    (include_low : Bool) (low_threshold : ℚ) : List FPlate :=
  let formatted := format_plates
    (extract_plates (PlateParser.init confidence_threshold pattern compile) lines)
  if include_low then
    formatted ++ lowAugmented lines confidence_threshold low_threshold pattern compile
  else formatted

/-!  ### Concrete configurations and inputs used to settle the claims  -/

/-- The default configuration: `confidence_threshold=60.0`, no custom
pattern. -/
def defaultParser : PlateParser :=
  { confidence_threshold := 60, custom_pattern := none }

/-- A parser whose threshold violates the documented `[0,100]` range. -/
def parser101 : PlateParser :=
  { confidence_threshold := 101, custom_pattern := none }

/-- One block whose text matches only a mandatory-separator layout
(pattern 4 with a 5-digit number), so its separator-stripped form
matches no layout. -/
def c1blocks : List TBlock :=
  [{ text := ("TS 08 FW 31311").data, confidence := 90, left := 0, width := 0 }]

/-- One block whose quoted text hides an `IND` marker: its cleaned form
is usable but only a second cleaning round (as a merged-pass window
would do) uncovers the plate. -/
def c4blocks : List TBlock :=
  [{ text := ("\"IND TS08FW3131\"").data, confidence := 90, left := 0, width := 0 }]

/-- Two usable blocks forming a 2-window for the merged pass. -/
def c4wBlocks : List TBlock :=
  [{ text := ("TS08").data, confidence := 80, left := 0, width := 0 },
   { text := ("FW3131").data, confidence := 82, left := 0, width := 0 }]

/-- One block carrying a speed-camera overlay marker. -/
def c5blocks : List TBlock :=
  [{ text := ("Plate: TS08FW3131").data, confidence := 95, left := 0, width := 0 }]

/-- One plate line with confidence 59.999, between the default low
threshold 30 and the main threshold 60 but rounding up to 60. -/
def c8lines : List TBlock :=
  [{ text := ("TS 08 FW 3131").data, confidence := mkRat 59999 1000, left := 0, width := 0 }]

/-!  ### Lemmas: the stable descending sort  -/

theorem insertDesc_perm (x : Plate) : ∀ l : List Plate, List.Perm (insertDesc x l) (x :: l)
  | [] => List.Perm.refl _
  | y :: ys => by
      unfold insertDesc
      split
      · exact List.Perm.refl _
      · exact ((insertDesc_perm x ys).cons y).trans (List.Perm.swap x y ys)

theorem sortDesc_perm : ∀ l : List Plate, List.Perm (sortDesc l) l
  | [] => List.Perm.refl _
  | x :: xs => (insertDesc_perm x (sortDesc xs)).trans ((sortDesc_perm xs).cons x)

theorem insertDesc_pairwise {x : Plate} :
    ∀ {l : List Plate}, l.Pairwise (fun p q => q.confidence ≤ p.confidence) →
      (insertDesc x l).Pairwise (fun p q => q.confidence ≤ p.confidence) := by
  intro l
  induction l with
  | nil => intro _; simp [insertDesc]
  | cons y ys ih =>
      intro h
      rw [List.pairwise_cons] at h
      unfold insertDesc
      split
      next hle =>
        refine List.pairwise_cons.mpr ⟨?_, List.pairwise_cons.mpr h⟩
        intro q hq
        rcases List.mem_cons.mp hq with rfl | hq'
        · exact hle
        · exact le_trans (h.1 q hq') hle
      next hgt =>
        refine List.pairwise_cons.mpr ⟨?_, ih h.2⟩
        intro q hq
        rcases List.mem_cons.mp ((insertDesc_perm x ys).mem_iff.mp hq) with rfl | hq'
        · exact le_of_lt (lt_of_not_le hgt)
        · exact h.1 q hq'

theorem sortDesc_pairwise :
    ∀ l : List Plate, (sortDesc l).Pairwise (fun p q => q.confidence ≤ p.confidence)
  | [] => by simp [sortDesc]
  | x :: xs => by
      rw [show sortDesc (x :: xs) = insertDesc x (sortDesc xs) from rfl]
      exact insertDesc_pairwise (sortDesc_pairwise xs)

theorem insertDesc_filter (c : ℚ) (x : Plate) :
    ∀ l : List Plate,
      (insertDesc x l).filter (fun p => decide (p.confidence = c)) =
        ((x :: l).filter (fun p => decide (p.confidence = c)))
  | [] => rfl
  | y :: ys => by
      unfold insertDesc
      split
      next hle => rfl
      next hgt =>
        have hlt : x.confidence < y.confidence := lt_of_not_le hgt
        by_cases hx : x.confidence = c
        · by_cases hy : y.confidence = c
          · exact absurd (hx.trans hy.symm) (ne_of_lt hlt)
          · simp [List.filter_cons, hx, hy, insertDesc_filter c x ys]
        · by_cases hy : y.confidence = c <;>
            simp [List.filter_cons, hx, hy, insertDesc_filter c x ys]

theorem sortDesc_filter (c : ℚ) :
    ∀ l : List Plate,
      (sortDesc l).filter (fun p => decide (p.confidence = c)) =
        l.filter (fun p => decide (p.confidence = c))
  | [] => rfl
  | x :: xs => by
      rw [show sortDesc (x :: xs) = insertDesc x (sortDesc xs) from rfl,
        insertDesc_filter c x (sortDesc xs)]
      simp only [List.filter_cons]
      rw [sortDesc_filter c xs]

/-!  ### Lemmas: the `_add` dedup fold  -/

theorem foldl_addFold_eq_keepFirst :
    ∀ (l : List Plate) (plates : List Plate) (seen : List (List Char)),
      (l.foldl addFold (plates, seen)).1 = plates ++ keepFirst seen l
  | [], plates, seen => by simp [keepFirst]
  | p :: ps, plates, seen => by
      simp only [List.foldl_cons, addFold, keepFirst]
      by_cases h : normKey p.text ∈ seen
      · rw [if_pos h, if_pos h, foldl_addFold_eq_keepFirst ps plates seen]
      · rw [if_neg h, if_neg h, foldl_addFold_eq_keepFirst ps (plates ++ [p]) _,
          List.append_assoc]
        rfl

theorem keepFirst_not_mem_seen :
    ∀ (l : List Plate) (seen : List (List Char)) (q : Plate),
      q ∈ keepFirst seen l → normKey q.text ∉ seen
  | [], _, q, h => absurd h (List.not_mem_nil q)
  | p :: ps, seen, q, h => by
      rw [keepFirst] at h
      by_cases hc : normKey p.text ∈ seen
      · rw [if_pos hc] at h
        exact keepFirst_not_mem_seen ps seen q h
      · rw [if_neg hc] at h
        rcases List.mem_cons.mp h with rfl | h'
        · exact hc
        · intro hs
          exact keepFirst_not_mem_seen ps _ q h' (List.mem_cons_of_mem _ hs)

theorem keepFirst_pairwise :
    ∀ (l : List Plate) (seen : List (List Char)),
      (keepFirst seen l).Pairwise (fun p q => normKey p.text ≠ normKey q.text)
  | [], seen => by simp [keepFirst]
  | p :: ps, seen => by
      rw [keepFirst]
      by_cases hc : normKey p.text ∈ seen
      · rw [if_pos hc]
        exact keepFirst_pairwise ps seen
      · rw [if_neg hc]
        refine List.pairwise_cons.mpr ⟨?_, keepFirst_pairwise ps _⟩
        intro q hq heq
        exact keepFirst_not_mem_seen ps _ q hq (heq ▸ List.mem_cons_self _ _)

theorem mem_foldl_addFold :
    ∀ (l : List Plate) (st : List Plate × List (List Char)) (p : Plate),
      p ∈ (l.foldl addFold st).1 → p ∈ st.1 ∨ p ∈ l
  | [], _, _, h => Or.inl h
  | q :: qs, st, p, h => by
      simp only [List.foldl_cons] at h
      rcases mem_foldl_addFold qs (addFold st q) p h with h1 | h1
      · unfold addFold at h1
        split at h1
        · exact Or.inl h1
        · rcases List.mem_append.mp h1 with h2 | h2
          · exact Or.inl h2
          · exact Or.inr (List.mem_cons.mpr (Or.inl (List.mem_singleton.mp h2)))
      · exact Or.inr (List.mem_cons_of_mem _ h1)

/-!  ### Lemmas: membership in the attempt lists  -/

theorem tryMatch_eq_some {P : PlateParser} {t : List Char} {c : ℚ}
    {r : List Char × ℚ} (h : tryMatch P t c = some r) :
    matches_plate_pattern P r.1 = true ∧ validate_state_code r.1 = true ∧
      r.2 = c ∧ is_noise (clean_raw_text t) = false := by
  unfold tryMatch at h
  split at h
  · exact absurd h (by simp)
  · split at h
    next hn => exact absurd h (by simp)
    next hn =>
      split at h
      next hm =>
        cases h
        rw [Bool.and_eq_true] at hm
        exact ⟨hm.1, hm.2, rfl, Bool.not_eq_true _ ▸ Bool.of_not_eq_true hn⟩
      next hm =>
        split at h
        next hf =>
          cases h
          rw [Bool.and_eq_true, Bool.and_eq_true] at hf
          exact ⟨hf.1.2, hf.2, rfl, Bool.not_eq_true _ ▸ Bool.of_not_eq_true hn⟩
        next => exact absurd h (by simp)

theorem tryMatch_of_noise {P : PlateParser} {t : List Char} (c : ℚ)
    (h : is_noise (clean_raw_text t) = true) : tryMatch P t c = none := by
  simp only [tryMatch, h]
  split
  · rfl
  · simp

theorem optionMap_plate_eq {o : Option (List Char × ℚ)} {bt : BlockType} {p : Plate}
    (h : o.map (fun r => (⟨r.1, r.2, bt⟩ : Plate)) = some p) :
    o = some (p.text, p.confidence) := by
  cases o with
  | none => simp at h
  | some r =>
      simp only [Option.map_some'] at h
      rw [← Option.some.inj h]

theorem mem_pass1Attempts {P : PlateParser} {blocks : List TBlock} {p : Plate}
    (h : p ∈ pass1Attempts P blocks) :
    ∃ t c, tryMatch P t c = some (p.text, p.confidence) := by
  simp only [pass1Attempts] at h
  rcases List.mem_filterMap.mp h with ⟨b, _, hb⟩
  split at hb
  · exact absurd hb (by simp)
  · exact ⟨_, _, optionMap_plate_eq hb⟩

theorem mem_pass2Attempts {P : PlateParser} {blocks : List TBlock} {p : Plate}
    (h : p ∈ pass2Attempts P blocks) :
    ∃ t c, tryMatch P t c = some (p.text, p.confidence) := by
  unfold pass2Attempts at h
  rcases List.mem_filterMap.mp h with ⟨w, _, hw⟩
  exact ⟨_, _, optionMap_plate_eq hw⟩

theorem mem_pass3Attempts {P : PlateParser} {blocks : List TBlock} {p : Plate}
    (h : p ∈ pass3Attempts P blocks) :
    ∃ t c, tryMatch P t c = some (p.text, p.confidence) := by
  simp only [pass3Attempts] at h
  rcases List.mem_filterMap.mp h with ⟨b, _, hb⟩
  split at hb
  · exact absurd hb (by simp)
  · exact ⟨_, _, optionMap_plate_eq hb⟩

theorem mem_pass4Attempts {P : PlateParser} {blocks : List TBlock} {p : Plate}
    (h : p ∈ pass4Attempts P blocks) :
    ∃ t c, tryMatch P t c = some (p.text, p.confidence) := by
  unfold pass4Attempts at h
  rcases List.mem_filterMap.mp h with ⟨t, _, ht⟩
  exact ⟨_, _, optionMap_plate_eq ht⟩

theorem mem_allAttempts {P : PlateParser} {blocks : List TBlock} {p : Plate}
    (h : p ∈ allAttempts P blocks) :
    ∃ t c, tryMatch P t c = some (p.text, p.confidence) := by
  unfold allAttempts at h
  rcases List.mem_append.mp h with h1 | h1
  · rcases List.mem_append.mp h1 with h2 | h2
    · rcases List.mem_append.mp h2 with h3 | h3
      · exact mem_pass1Attempts h3
      · exact mem_pass2Attempts h3
    · exact mem_pass3Attempts h2
  · exact mem_pass4Attempts h1

theorem mem_extract_plates {P : PlateParser} {blocks : List TBlock} {p : Plate}
    (h : p ∈ extract_plates P blocks) :
    ∃ t c, tryMatch P t c = some (p.text, p.confidence) := by
  unfold extract_plates at h
  split at h
  · exact absurd h (List.not_mem_nil p)
  · have h1 : p ∈ extractRaw P blocks := (sortDesc_perm _).mem_iff.mp h
    unfold extractRaw at h1
    rcases mem_foldl_addFold _ _ _ h1 with h2 | h2
    · exact absurd h2 (List.not_mem_nil p)
    · exact mem_allAttempts h2

/-!  ### Lemmas: the merged-pass windows  -/

theorem winJoin_window_mem :
    ∀ (u : List (List Char × ℚ)) (i k : Nat), 2 ≤ k → k ≤ 4 → i + k ≤ u.length →
      winJoin ((u.drop i).take k) ∈ winStarts u := by
  intro u
  induction u with
  | nil =>
      intro i k h2 _ hlen
      simp only [List.length_nil, Nat.le_zero] at hlen
      omega
  | cons x rest ih =>
      intro i k h2 h4 hlen
      cases i with
      | zero =>
          rw [winStarts]
          refine List.mem_append.mpr (Or.inl ?_)
          unfold windowsFrom
          refine List.mem_filterMap.mpr ⟨k, ?_, ?_⟩
          · interval_cases k <;> simp
          · have hk : k ≤ (x :: rest).length := by simpa using hlen
            rw [if_pos hk, List.drop_zero]
      | succ i' =>
          rw [winStarts]
          refine List.mem_append.mpr (Or.inr ?_)
          have hlen' : i' + k ≤ rest.length := by
            simpa [Nat.succ_add] using hlen
          simpa [List.drop_succ_cons] using ih i' k h2 h4 hlen'

/-!  ### Lemmas: behaviour under an out-of-range threshold  -/

theorem pass1Attempts_above_range {P : PlateParser} {blocks : List TBlock}
    (hT : 100 < P.confidence_threshold) (hb : ∀ b ∈ blocks, b.confidence ≤ 100) :
    pass1Attempts P blocks = [] := by
  unfold pass1Attempts
  rw [List.filterMap_eq_nil_iff]
  intro b hbm
  have hlt : b.confidence < P.confidence_threshold := lt_of_le_of_lt (hb b hbm) hT
  simp [hlt]

theorem usableBlocks_above_range {P : PlateParser} {blocks : List TBlock}
    (hT : 100 < P.confidence_threshold) (hb : ∀ b ∈ blocks, b.confidence ≤ 100) :
    usableBlocks P blocks = [] := by
  unfold usableBlocks
  rw [List.filterMap_eq_nil_iff]
  intro b hbm
  have hlt : b.confidence < P.confidence_threshold := lt_of_le_of_lt (hb b hbm) hT
  simp [hlt]

theorem pass2Attempts_above_range {P : PlateParser} {blocks : List TBlock}
    (hT : 100 < P.confidence_threshold) (hb : ∀ b ∈ blocks, b.confidence ≤ 100) :
    pass2Attempts P blocks = [] := by
  unfold pass2Attempts
  rw [usableBlocks_above_range hT hb]
  rfl

theorem filter_by_confidence_above_range {blocks : List TBlock} {threshold : ℚ}
    (hT : 100 < threshold) (hb : ∀ b ∈ blocks, b.confidence ≤ 100) :
    filter_by_confidence blocks threshold = [] := by
  unfold filter_by_confidence
  rw [List.filter_eq_nil_iff]
  intro b hbm
  simp only [decide_eq_true_eq]
  intro hge
  exact absurd (le_trans hge (hb b hbm)) (not_le.mpr hT)

theorem pass4Attempts_above_range {P : PlateParser} {blocks : List TBlock}
    (hT : 100 < P.confidence_threshold) (hb : ∀ b ∈ blocks, b.confidence ≤ 100) :
    pass4Attempts P blocks = [] := by
  unfold pass4Attempts
  rw [filter_by_confidence_above_range hT hb]
  rfl

/-!  ### Lemmas: the OCR-repair walk  -/

theorem fixWalk_high : ∀ (l : List Char) (k : Nat), 4 ≤ k → fixWalk k l = l
  | [], _, _ => rfl
  | c :: cs, k, hk => by
      rw [fixWalk]
      by_cases hs : isSepChar c = true
      · rw [if_pos hs, fixWalk_high cs k hk]
      · rw [if_neg hs, if_neg (by omega), if_neg (by omega),
          fixWalk_high cs (k + 1) (by omega)]


theorem fixPass_digit_walk :
    ∀ (l : List Char) (j : Nat), j ≤ 2 →
      (fixPass ocrDigitFix j l).1 ++ (fixPass ocrDigitFix j l).2 = fixWalk (2 + j) l
  | [], j, _ => by simp [fixPass, fixWalk]
  | c :: cs, j, hj => by
      by_cases h2 : 2 ≤ j
      · have hj2 : j = 2 := le_antisymm hj h2
        subst hj2
        rw [fixPass, if_pos (le_refl 2)]
        show ([] : List Char) ++ (c :: cs) = fixWalk 4 (c :: cs)
        rw [List.nil_append, fixWalk_high (c :: cs) 4 (by omega)]
      · rw [fixPass, if_neg h2, fixWalk]
        by_cases hs : isSepChar c = true
        · rw [if_pos hs, if_pos hs]
          show (c :: (fixPass ocrDigitFix j cs).1) ++ (fixPass ocrDigitFix j cs).2 =
            c :: fixWalk (2 + j) cs
          rw [List.cons_append]
          exact congrArg (c :: ·) (fixPass_digit_walk cs j hj)
        · rw [if_neg hs, if_neg hs, if_neg (show ¬(2 + j < 2) by omega),
            if_pos (show 2 + j < 4 by omega)]
          show (ocrDigitFix c :: (fixPass ocrDigitFix (j + 1) cs).1) ++
              (fixPass ocrDigitFix (j + 1) cs).2 =
            ocrDigitFix c :: fixWalk (2 + j + 1) cs
          rw [List.cons_append]
          exact congrArg (ocrDigitFix c :: ·) (fixPass_digit_walk cs (j + 1) (by omega))

theorem fixPass_letter_walk :
    ∀ (l : List Char) (j : Nat), j ≤ 2 →
      (fixPass ocrLetterFix j l).1 ++
        ((fixPass ocrDigitFix 0 (fixPass ocrLetterFix j l).2).1 ++
          (fixPass ocrDigitFix 0 (fixPass ocrLetterFix j l).2).2) = fixWalk j l
  | [], j, _ => by simp [fixPass, fixWalk]
  | c :: cs, j, hj => by
      by_cases h2 : 2 ≤ j
      · have hj2 : j = 2 := le_antisymm hj h2
        subst hj2
        rw [fixPass, if_pos (le_refl 2)]
        show ([] : List Char) ++
            ((fixPass ocrDigitFix 0 (c :: cs)).1 ++ (fixPass ocrDigitFix 0 (c :: cs)).2) =
          fixWalk 2 (c :: cs)
        rw [List.nil_append]
        exact fixPass_digit_walk (c :: cs) 0 (by omega)
      · rw [fixPass, if_neg h2, fixWalk]
        by_cases hs : isSepChar c = true
        · rw [if_pos hs, if_pos hs]
          show (c :: (fixPass ocrLetterFix j cs).1) ++
              ((fixPass ocrDigitFix 0 (fixPass ocrLetterFix j cs).2).1 ++
                (fixPass ocrDigitFix 0 (fixPass ocrLetterFix j cs).2).2) =
            c :: fixWalk j cs
          rw [List.cons_append]
          exact congrArg (c :: ·) (fixPass_letter_walk cs j hj)
        · rw [if_neg hs, if_neg hs, if_pos (show j < 2 by omega)]
          show (ocrLetterFix c :: (fixPass ocrLetterFix (j + 1) cs).1) ++
              ((fixPass ocrDigitFix 0 (fixPass ocrLetterFix (j + 1) cs).2).1 ++
                (fixPass ocrDigitFix 0 (fixPass ocrLetterFix (j + 1) cs).2).2) =
            ocrLetterFix c :: fixWalk (j + 1) cs
          rw [List.cons_append]
          exact congrArg (ocrLetterFix c :: ·) (fixPass_letter_walk cs (j + 1) (by omega))

theorem fix_eq_fixWalk (t : List Char)
    (h7 : 7 ≤ (t.filter (fun c => !(isSepChar c))).length)
    (h13 : (t.filter (fun c => !(isSepChar c))).length ≤ 13) :
    fix_ocr_confusables t = fixWalk 0 t := by
  unfold fix_ocr_confusables
  rw [if_neg]
  · exact fixPass_letter_walk t 0 (by omega)
  · simp only [Bool.or_eq_true, decide_eq_true_eq, not_or]
    omega

theorem fixWalk_length : ∀ (l : List Char) (k : Nat), (fixWalk k l).length = l.length
  | [], _ => rfl
  | c :: cs, k => by
      rw [fixWalk]
      by_cases hs : isSepChar c = true
      · rw [if_pos hs]
        simpa using fixWalk_length cs k
      · rw [if_neg hs]
        simpa using fixWalk_length cs (k + 1)

theorem sepRank_cons_succ (c : Char) (cs : List Char) (i : Nat) :
    sepRank (c :: cs) (i + 1) = (if isSepChar c then 0 else 1) + sepRank cs i := by
  unfold sepRank
  rw [List.take_succ_cons, List.filter_cons]
  by_cases hs : isSepChar c = true
  · simp [hs]
  · simp [hs, Nat.add_comm]

theorem fixWalk_getElem? :
    ∀ (l : List Char) (k i : Nat) (c : Char), l[i]? = some c →
      (fixWalk k l)[i]? = some
        (if isSepChar c then c
         else if k + sepRank l i < 2 then ocrLetterFix c
         else if k + sepRank l i < 4 then ocrDigitFix c
         else c)
  | [], _, i, c, h => by simp at h
  | x :: xs, k, 0, c, h => by
      rw [List.getElem?_cons_zero] at h
      injection h with h
      subst h
      rw [fixWalk]
      have hr : sepRank (x :: xs) 0 = 0 := by simp [sepRank]
      by_cases hs : isSepChar x = true
      · rw [if_pos hs, List.getElem?_cons_zero, if_pos hs]
      · rw [if_neg hs, List.getElem?_cons_zero, if_neg hs, hr, Nat.add_zero]
  | x :: xs, k, i + 1, c, h => by
      rw [List.getElem?_cons_succ] at h
      rw [fixWalk, sepRank_cons_succ]
      by_cases hs : isSepChar x = true
      · rw [if_pos hs, List.getElem?_cons_succ, if_pos hs, Nat.zero_add]
        exact fixWalk_getElem? xs k i c h
      · rw [if_neg hs, List.getElem?_cons_succ, if_neg hs]
        rw [fixWalk_getElem? xs (k + 1) i c h]
        congr 1
        rw [show k + (1 + sepRank xs i) = k + 1 + sepRank xs i by omega]

/-!  ### The claims  -/

theorem extractRaw_nil (P : PlateParser) : extractRaw P [] = [] := rfl

/-- C1 counterexample: the default configuration accepts the block text
`"TS 08 FW 31311"` (it matches the mandatory-space layout
`^([A-Z]{2})\s(\d{2})\s([A-Z]{1,2})\s(\d{4,5})$`), yet the candidate's
text with spaces and hyphens stripped matches no configured layout
pattern — refuting the claim's space/hyphen-stripped invariant at this
input. -/
theorem C1_cx :
    extract_plates defaultParser c1blocks =
      [⟨("TS 08 FW 31311").data, 90, BlockType.single⟩] ∧
    matches_plate_pattern defaultParser
      ((("TS 08 FW 31311").data).filter (fun c => !(isSepChar c))) = false :=
  ⟨by decide, by decide⟩

/-- C1 (amended): every candidate returned by `extract_plates` has text
that is itself accepted by the configured layout matcher
(`matches_plate_pattern`: the caller-supplied pattern alone if
configured, otherwise the built-in library on the upper-cased, stripped
text) — though its space/hyphen-stripped form need not match any
layout — and whose first two characters after stripping and
upper-casing are a member of the regional-code set
(`validate_state_code`). -/
theorem C1_output_matches_and_valid_code (P : PlateParser) (blocks : List TBlock)
    (p : Plate) (h : p ∈ extract_plates P blocks) :
    matches_plate_pattern P p.text = true ∧ validate_state_code p.text = true := by
  rcases mem_extract_plates h with ⟨t, c, ht⟩
  have hspec := tryMatch_eq_some ht
  exact ⟨hspec.1, hspec.2.1⟩

/-- Witness for C1: a concrete accepted plate satisfies both checks. -/
theorem C1_output_matches_and_valid_code_witness :
    matches_plate_pattern defaultParser (("TS 08 FW 31311").data) = true ∧
      validate_state_code (("TS 08 FW 31311").data) = true :=
  C1_output_matches_and_valid_code defaultParser c1blocks
    ⟨("TS 08 FW 31311").data, 90, BlockType.single⟩ (by decide)

/-- C2: no two candidates returned by `extract_plates` share a
`NormalizedKey` (`normKey`: spaces removed, upper-cased; hyphens kept),
and the deduplicated list before sorting is exactly the
first-insertion-wins filtering (`keepFirst`) of the attempt list in
pass order Single, Merged, Overlay, Adjacent (`allAttempts`): when
several passes produce the same key, the first insertion wins and the
later attempts are dropped. -/
theorem C2_dedup_normalized_key (P : PlateParser) (blocks : List TBlock) :
    (extract_plates P blocks).Pairwise (fun p q => normKey p.text ≠ normKey q.text) ∧
      extractRaw P blocks = keepFirst [] (allAttempts P blocks) := by
  constructor
  · unfold extract_plates
    split
    · simp
    · have hraw : (extractRaw P blocks).Pairwise
          (fun p q => normKey p.text ≠ normKey q.text) := by
        unfold extractRaw
        rw [foldl_addFold_eq_keepFirst (allAttempts P blocks) [] [], List.nil_append]
        exact keepFirst_pairwise (allAttempts P blocks) []
      exact (List.Perm.pairwise_iff (fun h => Ne.symm h)
        (sortDesc_perm (extractRaw P blocks))).mpr hraw
  · unfold extractRaw
    rw [foldl_addFold_eq_keepFirst (allAttempts P blocks) [] [], List.nil_append]

/-- C3: the output of `extract_plates` is sorted by confidence
non-increasing, and the sort is stable: for every confidence value the
candidates carrying it appear in exactly their pass-insertion order
(the order of `extractRaw`, i.e. Single, Merged, Overlay, Adjacent with
first-insertion-wins dedup). -/
theorem C3_sorted_descending_stable (P : PlateParser) (blocks : List TBlock) :
    (extract_plates P blocks).Pairwise (fun p q => q.confidence ≤ p.confidence) ∧
      ∀ c : ℚ, (extract_plates P blocks).filter (fun p => decide (p.confidence = c)) =
        (extractRaw P blocks).filter (fun p => decide (p.confidence = c)) := by
  unfold extract_plates
  split
  next hnil =>
    subst hnil
    exact ⟨List.Pairwise.nil, fun c => by rw [extractRaw_nil]⟩
  next =>
    exact ⟨sortDesc_pairwise _, fun c => sortDesc_filter c _⟩

/-- C4 counterexample: with one usable block the merged pass hands no
window at all to `tryMatch` (the tried-window list `winStarts` is
empty), although the claim's size-1 window exists and trying it would
even succeed — a second cleaning round strips the `IND` marker and
uncovers a valid plate, which the pipeline as a whole misses: windows
of size 1 are not tried. -/
theorem C4_cx :
    (usableBlocks defaultParser c4blocks).length = 1 ∧
    winStarts (usableBlocks defaultParser c4blocks) = [] ∧
    tryMatch defaultParser
        (winJoin ((usableBlocks defaultParser c4blocks).take 1)).1
        (winJoin ((usableBlocks defaultParser c4blocks).take 1)).2 =
      some (("TS08FW3131").data, 90) ∧
    extract_plates defaultParser c4blocks = [] :=
  ⟨by decide, by decide, by decide, by decide⟩

/-- C4 (amended): in the merged pass, every contiguous window of 2 to 4
consecutive usable blocks (not 1 to 4: the inner loop starts at
`i + 1`) is tried via `tryMatch`, as the space-joined window text with
confidence the arithmetic mean of the window's block confidences
(`winJoin`); `pass2Attempts` is by construction the `tryMatch` filtering
of exactly the tried-window list `winStarts`. -/
theorem C4_merged_windows (P : PlateParser) (blocks : List TBlock) (i k : Nat)
    (h2 : 2 ≤ k) (h4 : k ≤ 4)
    (hlen : i + k ≤ (usableBlocks P blocks).length) :
    winJoin (((usableBlocks P blocks).drop i).take k) ∈
        winStarts (usableBlocks P blocks) ∧
      pass2Attempts P blocks = (winStarts (usableBlocks P blocks)).filterMap
        (fun w => (tryMatch P w.1 w.2).map fun r => ⟨r.1, r.2, BlockType.merged⟩) :=
  ⟨winJoin_window_mem _ i k h2 h4 hlen, rfl⟩

/-- Witness for C4 (amended): the 2-window of two concrete usable
blocks is among the tried windows. -/
theorem C4_merged_windows_witness :
    winJoin (((usableBlocks defaultParser c4wBlocks).drop 0).take 2) ∈
        winStarts (usableBlocks defaultParser c4wBlocks) ∧
      pass2Attempts defaultParser c4wBlocks =
        (winStarts (usableBlocks defaultParser c4wBlocks)).filterMap
          (fun w => (tryMatch defaultParser w.1 w.2).map fun r =>
            ⟨r.1, r.2, BlockType.merged⟩) :=
  C4_merged_windows defaultParser c4wBlocks 0 2 (by decide) (by decide) (by decide)

/-- C5 counterexample: with threshold 101 (out of range) the engine
does not return the empty list: the overlay pass ignores the threshold,
so a block carrying a `Plate:` marker still yields a candidate. -/
theorem C5_cx :
    100 < parser101.confidence_threshold ∧
    extract_plates parser101 c5blocks =
      [⟨("TS08FW3131").data, 95, BlockType.overlay⟩] :=
  ⟨by decide, by decide⟩

/-- C5 (amended): with a threshold above 100 and in-range block
confidences, the Single, Merged and Adjacent passes are empty and
`extract_plates` degrades silently (it is a total function — nothing is
raised) to exactly the deduplicated, sorted Overlay-pass candidates;
in particular the result is empty whenever no block carries a `Plate:`
marker, but the Overlay pass is NOT suppressed by the threshold. -/
theorem C5_threshold_above_range (P : PlateParser) (blocks : List TBlock)
    (hT : 100 < P.confidence_threshold)
    (hb : ∀ b ∈ blocks, b.confidence ≤ 100) :
    extract_plates P blocks = sortDesc (keepFirst [] (pass3Attempts P blocks)) := by
  unfold extract_plates
  split
  next hnil =>
    subst hnil
    rfl
  next =>
    unfold extractRaw
    rw [foldl_addFold_eq_keepFirst (allAttempts P blocks) [] [], List.nil_append]
    unfold allAttempts
    rw [pass1Attempts_above_range hT hb, pass2Attempts_above_range hT hb,
      pass4Attempts_above_range hT hb, List.nil_append, List.nil_append,
      List.append_nil]

/-- Witness for C5 (amended): the concrete out-of-range run equals its
overlay-only description. -/
theorem C5_threshold_above_range_witness :
    extract_plates parser101 c5blocks =
      sortDesc (keepFirst [] (pass3Attempts parser101 c5blocks)) :=
  C5_threshold_above_range parser101 c5blocks (by decide) (by decide)

/-!  ### Bridge lemmas: the kernel-reducible arithmetic agrees with `ℚ`  -/

theorem qNat_eq (n : Nat) : qNat n = (n : ℚ) := by
  rw [qNat, Rat.mkRat_eq_div]
  simp

theorem qInt_eq (z : ℤ) : qInt z = (z : ℚ) := by
  rw [qInt, Rat.mkRat_eq_div]
  simp

theorem qAdd_eq (a b : ℚ) : qAdd a b = a + b := by
  have ha : ((a.den : ℤ) : ℚ) ≠ 0 := by exact_mod_cast a.den_nz
  have hb : ((b.den : ℤ) : ℚ) ≠ 0 := by exact_mod_cast b.den_nz
  rw [qAdd, Rat.mkRat_eq_div]
  push_cast
  conv_rhs => rw [← Rat.num_div_den a, ← Rat.num_div_den b]
  field_simp

theorem qSub_eq (a b : ℚ) : qSub a b = a - b := by
  have ha : ((a.den : ℤ) : ℚ) ≠ 0 := by exact_mod_cast a.den_nz
  have hb : ((b.den : ℤ) : ℚ) ≠ 0 := by exact_mod_cast b.den_nz
  rw [qSub, Rat.mkRat_eq_div]
  push_cast
  conv_rhs => rw [← Rat.num_div_den a, ← Rat.num_div_den b]
  field_simp
  ring

theorem qMul_eq (a b : ℚ) : qMul a b = a * b := by
  have ha : ((a.den : ℤ) : ℚ) ≠ 0 := by exact_mod_cast a.den_nz
  have hb : ((b.den : ℤ) : ℚ) ≠ 0 := by exact_mod_cast b.den_nz
  rw [qMul, Rat.mkRat_eq_div]
  push_cast
  conv_rhs => rw [← Rat.num_div_den a, ← Rat.num_div_den b]
  field_simp

theorem qMk_eq (n d : ℤ) : qMk n d = (n : ℚ) / (d : ℚ) := by
  unfold qMk
  split
  next h =>
    rw [Rat.mkRat_eq_div]
    have h1 : ((-d).toNat : ℤ) = -d := Int.toNat_of_nonneg (by omega)
    have h2 : (((-d).toNat : ℕ) : ℚ) = -(d : ℚ) := by exact_mod_cast h1
    rw [h2]
    push_cast
    rw [neg_div_neg_eq]
  next h =>
    rw [Rat.mkRat_eq_div]
    have h1 : (d.toNat : ℤ) = d := Int.toNat_of_nonneg (by omega)
    have h2 : ((d.toNat : ℕ) : ℚ) = (d : ℚ) := by exact_mod_cast h1
    rw [h2]

theorem qDiv_eq (a b : ℚ) : qDiv a b = a / b := by
  rw [qDiv, qMk_eq]
  push_cast
  conv_rhs => rw [← Rat.num_div_den a, ← Rat.num_div_den b,
    div_eq_mul_inv ((a.num : ℚ) / (a.den : ℚ)) ((b.num : ℚ) / (b.den : ℚ)),
    inv_div, div_mul_div_comm]
  rw [mul_comm ((b.num : ℚ)) ((a.den : ℚ))]

theorem qSum_eq : ∀ l : List ℚ, qSum l = l.sum
  | [] => rfl
  | x :: xs => by rw [qSum, qAdd_eq, qSum_eq xs, List.sum_cons]

theorem qFloor_eq (q : ℚ) : qFloor q = ⌊q⌋ := by
  rw [qFloor, Int.fdiv_eq_ediv _ (by exact_mod_cast Nat.zero_le q.den), Rat.floor_def]

/-- C6: behaviour of `fix_ocr_confusables`.  If the length of the text
with spaces and hyphens removed is outside `[7, 13]` the text is
returned unchanged; otherwise the result has the same length and, at
every position, separators are untouched, the first two non-separator
characters (non-separator rank `sepRank < 2`) go through the
digit-to-look-alike-letter map `ocrLetterFix`, the next two
(`sepRank < 4`) through the letter-to-look-alike-digit map
`ocrDigitFix`, and every later character is untouched. -/
theorem C6_fix_positional (t : List Char) :
    (((t.filter (fun c => !(isSepChar c))).length < 7 ∨
        13 < (t.filter (fun c => !(isSepChar c))).length) →
      fix_ocr_confusables t = t) ∧
    (7 ≤ (t.filter (fun c => !(isSepChar c))).length →
     (t.filter (fun c => !(isSepChar c))).length ≤ 13 →
     (fix_ocr_confusables t).length = t.length ∧
       ∀ (i : Nat) (c : Char), t[i]? = some c →
         (fix_ocr_confusables t)[i]? = some
           (if isSepChar c then c
            else if sepRank t i < 2 then ocrLetterFix c
            else if sepRank t i < 4 then ocrDigitFix c
            else c)) := by
  constructor
  · intro h
    unfold fix_ocr_confusables
    rw [if_pos]
    simp only [Bool.or_eq_true, decide_eq_true_eq]
    omega
  · intro h7 h13
    rw [fix_eq_fixWalk t h7 h13]
    refine ⟨fixWalk_length t 0, fun i c hic => ?_⟩
    rw [fixWalk_getElem? t 0 i c hic]
    simp only [Nat.zero_add]

/-- Witness for C6: the guard leaves a short text unchanged, and in the
in-range text `TSOBFW3131` the third character (non-separator rank 2,
an `O` in a digit position) is repaired to `0`. -/
theorem C6_fix_positional_witness :
    fix_ocr_confusables (("AB12").data) = ("AB12").data ∧
      (fix_ocr_confusables (("TSOBFW3131").data)).length =
        (("TSOBFW3131").data).length ∧
      (fix_ocr_confusables (("TSOBFW3131").data))[2]? = some '0' := by
  refine ⟨(C6_fix_positional (("AB12").data)).1 (by decide),
    ((C6_fix_positional (("TSOBFW3131").data)).2 (by decide) (by decide)).1, ?_⟩
  rw [((C6_fix_positional (("TSOBFW3131").data)).2 (by decide) (by decide)).2 2 'O'
    (by decide)]
  decide

/-- C7: `is_noise` runs before any pattern matching inside `tryMatch`:
whenever the cleaned form of a text is classified as noise the match is
rejected outright, with no pattern hypothesis needed — even text whose
cleaned form satisfies a layout pattern is dropped; consequently every
candidate of `extract_plates` stems from a `tryMatch` acceptance of
some source text whose cleaned form is not noise. -/
theorem C7_noise_before_patterns (P : PlateParser) :
    (∀ (t : List Char) (c : ℚ), is_noise (clean_raw_text t) = true →
      tryMatch P t c = none) ∧
    (∀ (blocks : List TBlock) (p : Plate), p ∈ extract_plates P blocks →
      ∃ t c, tryMatch P t c = some (p.text, p.confidence) ∧
        is_noise (clean_raw_text t) = false) := by
  refine ⟨fun t c h => tryMatch_of_noise c h, fun blocks p hp => ?_⟩
  rcases mem_extract_plates hp with ⟨t, c, ht⟩
  exact ⟨t, c, ht, (tryMatch_eq_some ht).2.2.2⟩

/-- Witness for C7: the noise word `IND` cleans to itself, is noise,
and produces no candidate. -/
theorem C7_noise_before_patterns_witness :
    is_noise (clean_raw_text (("IND").data)) = true ∧
      tryMatch defaultParser (("IND").data) 99 = none :=
  ⟨by decide, (C7_noise_before_patterns defaultParser).1 (("IND").data) 99 (by decide)⟩

/-- C8 counterexample: with main threshold 60 and low threshold 30, a
candidate of confidence 59.999 passes the augmentation filter but is
stored with `round(59.999, 2) = 60.0`, so the appended low-confidence
candidate's confidence is NOT strictly below the main threshold. -/
theorem C8_cx :
    lowAugmented c8lines 60 30 none (fun _ _ => false) =
      [⟨("TS 08 FW 3131").data, 60, true⟩] ∧ ¬ ((60 : ℚ) < 60) :=
  ⟨by decide, by norm_num⟩

/-- C8 (amended): with `includeLowConfidence` enabled the result is the
primary ranked list with the low-confidence augmentation appended after
it (not re-sorted into it); every appended candidate is tagged
`is_low_confidence`, its exact text differs from every main-pass
result's text, and its confidence is `round2 c` for an underlying
pipeline confidence `c` with `lowThreshold ≤ c < confidenceThreshold` —
the stored rounded value itself may equal the main threshold, as the
counterexample shows. -/
theorem C8_low_confidence_augmentation (lines : List TBlock) (confT lowT : ℚ)
    (pattern : Option (List Char)) (compile : List Char → (List Char → Bool)) :
    parse_plates_from_textract lines confT pattern compile true lowT =
      format_plates (extract_plates (PlateParser.init confT pattern compile) lines) ++
        lowAugmented lines confT lowT pattern compile ∧
    ∀ q ∈ lowAugmented lines confT lowT pattern compile,
      q.is_low = true ∧
      (∀ m ∈ format_plates (extract_plates (PlateParser.init confT pattern compile) lines),
        m.text ≠ q.text) ∧
      ∃ c : ℚ, lowT ≤ c ∧ c < confT ∧ q.confidence = round2 c := by
  constructor
  · rfl
  · intro q hq
    simp only [lowAugmented] at hq
    rcases List.mem_filterMap.mp hq with ⟨p, _, hp⟩
    split at hp
    next hcond =>
      injection hp with hp
      subst hp
      rw [Bool.and_eq_true, Bool.and_eq_true] at hcond
      obtain ⟨⟨h1, h2⟩, h3⟩ := hcond
      refine ⟨rfl, fun m hm => ?_, p.confidence, of_decide_eq_true h2,
        of_decide_eq_true h1, rfl⟩
      have := List.all_eq_true.mp h3 m hm
      simpa using this
    next => exact absurd hp (by simp)

/-- Witness for C8 (amended): the concrete appended candidate is
tagged, absent from the (empty) main result, and rounded from an
underlying confidence inside the bounds. -/
theorem C8_low_confidence_augmentation_witness :
    (⟨("TS 08 FW 3131").data, 60, true⟩ : FPlate).is_low = true ∧
      (∀ m ∈ format_plates
          (extract_plates (PlateParser.init 60 none (fun _ _ => false)) c8lines),
        m.text ≠ (⟨("TS 08 FW 3131").data, 60, true⟩ : FPlate).text) ∧
      ∃ c : ℚ, 30 ≤ c ∧ c < 60 ∧
        (⟨("TS 08 FW 3131").data, 60, true⟩ : FPlate).confidence = round2 c :=
  (C8_low_confidence_augmentation c8lines 60 30 none (fun _ _ => false)).2
    ⟨("TS 08 FW 3131").data, 60, true⟩ (by decide)

/-- C9: the OCR repair never inserts or deletes: the result of
`fix_ocr_confusables` always has exactly the input's length, and every
space or hyphen of the input is unchanged at its original position. -/
theorem C9_fix_length_and_separators (t : List Char) :
    (fix_ocr_confusables t).length = t.length ∧
    ∀ (i : Nat) (c : Char), t[i]? = some c → isSepChar c = true →
      (fix_ocr_confusables t)[i]? = some c := by
  by_cases hg : 7 ≤ (t.filter (fun c => !(isSepChar c))).length ∧
      (t.filter (fun c => !(isSepChar c))).length ≤ 13
  · rw [fix_eq_fixWalk t hg.1 hg.2]
    refine ⟨fixWalk_length t 0, fun i c hic hsep => ?_⟩
    rw [fixWalk_getElem? t 0 i c hic, if_pos hsep]
  · have hfix : fix_ocr_confusables t = t := by
      unfold fix_ocr_confusables
      rw [if_pos]
      simp only [Bool.or_eq_true, decide_eq_true_eq]
      omega
    rw [hfix]
    exact ⟨rfl, fun i c hic _ => hic⟩

/-- Witness for C9: length preservation and an untouched space in a
concrete repair. -/
theorem C9_fix_length_and_separators_witness :
    (fix_ocr_confusables (("TS 08 FW 3131").data)).length =
        (("TS 08 FW 3131").data).length ∧
      (fix_ocr_confusables (("TS 08 FW 3131").data))[2]? = some ' ' :=
  ⟨(C9_fix_length_and_separators (("TS 08 FW 3131").data)).1,
    (C9_fix_length_and_separators (("TS 08 FW 3131").data)).2 2 ' '
      (by decide) (by decide)⟩

/-- C10: constructing the parser with the empty-string custom pattern
is identical to supplying no pattern — `__init__` tests truthiness, so
the empty pattern is never compiled — and `matches_plate_pattern` is
then decided by the built-in layout library on the upper-cased,
stripped text, for every input text. -/
theorem C10_empty_pattern_is_default (thr : ℚ)
    (compile : List Char → (List Char → Bool)) (t : List Char) :
    PlateParser.init thr (some []) compile = PlateParser.init thr none compile ∧
      matches_plate_pattern (PlateParser.init thr (some []) compile) t =
        matchesAnyBuiltin (pyStrip (pyUpper t)) :=
  ⟨rfl, rfl⟩
